import Mathlib

/-!
Verification of the kana-insights review-analysis pipeline (server-side
`server.ts`): the sentiment classifier (`analyzeBatch`), the batching loop of
the CSV upload handler, the row normalizer, the persistence writer, and the
read-side query endpoints.  Scores are JavaScript numbers that the code never
computes with (they are either the model's value or the constants `0` and
`0.5`), so they are carried as rationals.
-/

namespace Kana

/-- `sentiment` values after coercion: the closed set of the `SentimentAnalysis`
interface. -/
inductive Sentiment
  | positive
  | neutral
  | negative
  deriving DecidableEq

/-- A normalized review (`Mention` interface in `server.ts`). -/
structure Mention where
  id : String
  source : String
  content : String
  date : String
  deriving DecidableEq

/-- A classification result (`SentimentAnalysis` interface in `server.ts`). -/
structure SentimentAnalysis where
  mentionId : String
  sentiment : Sentiment
  score : Rat
  entity : String
  deriving DecidableEq

/-- One element of the JSON array parsed from the model's text response.  Each
field is `none` when the JSON object lacks the field or holds a value of the
wrong JavaScript type (`typeof` checks in the code), and `some v` when the
field holds a string (resp. number) `v`. -/
structure ParsedEntry where
  mentionId : Option String
  sentiment : Option String
  score : Option Rat
  entity : Option String
  deriving DecidableEq

/-- Outcome of one `model.generateContent` attempt, as observed by
`analyzeBatch`: a response whose text parses to a JSON array, a response whose
text fails to parse or is not an array, a thrown error with `status === 429`,
or a thrown error of any other class. -/
inductive ApiOutcome
  | ok (parsed : List ParsedEntry)
  | notArray
  | rateLimit
  | otherError
  deriving DecidableEq

/-- `normalizeSentiment` from `server.ts`: keep one of the three literals,
anything else becomes `neutral`. -/
def normalizeSentiment (value : Option String) : Sentiment :=
  if value = some "positive" then .positive
  else if value = some "negative" then .negative
  else if value = some "neutral" then .neutral
  else .neutral

/-- JavaScript `v || d` for an optional string `v`: `undefined` and the empty
string are falsy. -/
def jsStrOr (v : Option String) (d : String) : String :=
  match v with
  | some s => if s = "" then d else s
  | none => d

/-- The per-mention fallback used on parse failure, after exhausted retries,
and for an unmatched mention: `sentiment neutral, score 0.5, entity General`. -/
def defaultResult (m : Mention) : SentimentAnalysis :=
  { mentionId := m.id, sentiment := .neutral, score := (1 : Rat) / 2, entity := "General" }

/-- The per-mention result returned when no API key is configured
(line 98 of `server.ts`): note the score is `0`, not `0.5`. -/
def noKeyResult (m : Mention) : SentimentAnalysis :=
  { mentionId := m.id, sentiment := .neutral, score := 0, entity := "General" }

/-- A whitespace character for JavaScript trimming purposes. -/
def isSpaceChar (c : Char) : Bool :=
  c = ' ' || c = '\t' || c = '\n' || c = '\r'

/-- JavaScript `String.prototype.trim` on character lists. -/
def trimChars (l : List Char) : List Char :=
  ((l.dropWhile isSpaceChar).reverse.dropWhile isSpaceChar).reverse

/-- JavaScript `s.trim()`. -/
def jsTrim (s : String) : String := String.mk (trimChars s.data)

/-- JavaScript `s.toLowerCase()` (the column names involved are ASCII). -/
def jsLower (s : String) : String := String.mk (s.data.map Char.toLower)

/-- The reconciliation of one input mention against the parsed response array
(lines 162-174 of `server.ts`): find the first entry whose `mentionId` equals
the mention's id; if absent substitute the default, otherwise coerce
field-by-field. -/
def reconcileOne (parsed : List ParsedEntry) (mention : Mention) : SentimentAnalysis :=
  match parsed.find? (fun p => p.mentionId == some mention.id) with
  | none => defaultResult mention
  | some found =>
    { mentionId := jsStrOr found.mentionId mention.id
      sentiment := normalizeSentiment found.sentiment
      score :=
        match found.score with
        | some q => q
        | none => (1 : Rat) / 2
      entity :=
        match found.entity with
        | some s => if jsTrim s ≠ "" then s else "General"
        | none => "General" }

/-- `mentions.map (mention => ...)`: one reconciled result per input mention. -/
def mergeBatch (mentions : List Mention) (parsed : List ParsedEntry) : List SentimentAnalysis :=
  mentions.map (reconcileOne parsed)

/-- `analyzeBatch` from `server.ts`.  `hasApiKey` reflects the `!apiKey` guard;
`oracle n` is the outcome of the external call made with `retryCount = n`.
The second component collects the `sleep` durations (in milliseconds) of the
retry backoff, in order. -/
def analyzeBatch (hasApiKey : Bool) (oracle : Nat → ApiOutcome) (mentions : List Mention)
    (retryCount : Nat) : List SentimentAnalysis × List Nat :=
  if hasApiKey = false then (mentions.map noKeyResult, [])
  else
    match oracle retryCount with
    | .ok parsed => (mergeBatch mentions parsed, [])
    | .notArray => (mentions.map defaultResult, [])
    | .rateLimit =>
      if h : retryCount < 3 then
        let waitTime := 2 ^ retryCount * 15000
        let next := analyzeBatch hasApiKey oracle mentions (retryCount + 1)
        (next.1, waitTime :: next.2)
      else (mentions.map defaultResult, [])
    | .otherError => (mentions.map defaultResult, [])
  termination_by 4 - retryCount
  decreasing_by omega

/-! ### Batching loop of the upload handler (lines 242-259 of `server.ts`) -/

/-- `BATCH_SIZE` constant of the upload handler. -/
def BATCH_SIZE : Nat := 15

/-- The `for (let i = 0; i < mentionsToAnalyze.length; i += BATCH_SIZE)` loop:
slices of `BATCH_SIZE` mentions are classified in order and the results are
appended.  `classify` abstracts one `analyzeBatch` call; the second component
counts the classifier calls made. -/
def batchLoop (classify : List Mention → List SentimentAnalysis) :
    List Mention → List SentimentAnalysis × Nat
  | [] => ([], 0)
  | m :: rest =>
    let results := classify ((m :: rest).take BATCH_SIZE)
    let next := batchLoop classify ((m :: rest).drop BATCH_SIZE)
    (results ++ next.1, next.2 + 1)
  termination_by ms => ms.length
  decreasing_by simp [BATCH_SIZE]; omega

/-- The partition of the input that the loop's slices induce: consecutive
chunks of `BATCH_SIZE`, the last one possibly shorter. -/
def chunked : List Mention → List (List Mention)
  | [] => []
  | m :: rest => (m :: rest).take BATCH_SIZE :: chunked ((m :: rest).drop BATCH_SIZE)
  termination_by ms => ms.length
  decreasing_by simp [BATCH_SIZE]; omega

/-! ### Row normalizer (`parser.on('data')`, lines 214-235 of `server.ts`) -/

/-- A parsed CSV row with header names: an association list from column name to
cell value, in column order. -/
abbrev RawRow := List (String × String)

/-- The recognized date-column aliases (`dateKeys` in `server.ts`). -/
def dateKeys : List String :=
  ["date", "publish_date", "created_at", "timestamp", "published_at", "time",
   "created", "published", "tanggal", "waktu"]

/-- The keys of a row, in order (`Object.keys(row)`). -/
def rowKeys (row : RawRow) : List String := row.map (·.1)

/-- JavaScript property access `row[k]`: the value at the first matching key,
`undefined` (here `none`) when the key is absent. -/
def rowGet (row : RawRow) (k : String) : Option String :=
  (row.find? (fun kv => kv.1 == k)).map (·.2)

/-- `Object.keys(row).find(k => dateKeys.includes(k.toLowerCase().trim()))`. -/
def foundDateKey (row : RawRow) : Option String :=
  (rowKeys row).find? (fun k => dateKeys.contains (jsTrim (jsLower k)))

/-- `row.content || row.text || row.Review || row.comment || row.caption || ''`
(line 224): note the capital `R` in `Review`. -/
def contentOf (row : RawRow) : String :=
  jsStrOr (rowGet row "content")
    (jsStrOr (rowGet row "text")
      (jsStrOr (rowGet row "Review")
        (jsStrOr (rowGet row "comment")
          (jsStrOr (rowGet row "caption") ""))))

/-- The content alias chain of line 224, in priority order. -/
def contentAliases : List String := ["content", "text", "Review", "comment", "caption"]

/-- The JavaScript `||` chain over the values of a list of keys. -/
def jsChain (row : RawRow) : List String → String
  | [] => ""
  | k :: ks => jsStrOr (rowGet row k) (jsChain row ks)

/-- Modelled from the spec: the first non-empty value among a list of alias
columns, checked in priority order ("first non-empty match wins"). -/
def specFirstNonEmpty (row : RawRow) : List String → String
  | [] => ""
  | k :: ks =>
    let v := jsStrOr (rowGet row k) ""
    if v = "" then specFirstNonEmpty row ks else v

/-- The regular-expression test `normalizedDate.match(/^\d{4}-\d{2}-\d{2}/)`:
the first ten characters are four digits, a dash, two digits, a dash and two
digits. -/
def matchesYMD (l : List Char) : Bool :=
  match l with
  | c0 :: c1 :: c2 :: c3 :: c4 :: c5 :: c6 :: c7 :: c8 :: c9 :: _ =>
    c0.isDigit && c1.isDigit && c2.isDigit && c3.isDigit && c4 == '-' &&
    c5.isDigit && c6.isDigit && c7 == '-' && c8.isDigit && c9.isDigit
  | _ => false

/-- `String(rawDate).split('T')[0].split(' ')[0]` followed by
`substring(0, 10)` when the `YYYY-MM-DD` pattern matches, on character
lists. -/
def normChars (l : List Char) : List Char :=
  let t := (l.takeWhile (fun c => c ≠ 'T')).takeWhile (fun c => c ≠ ' ')
  if matchesYMD t then t.take 10 else t

/-- The date normalization of lines 220-223 of `server.ts`. -/
def normalizeDate (s : String) : String := String.mk (normChars s.data)

/-- The body of `parser.on('data')`: build a `Mention` from a row, or drop the
row when its content is empty.  `nowISO` stands for
`new Date().toISOString()` and `rowCount` is the 1-based row ordinal. -/
def normalizeRow (platform : String) (nowISO : String) (rowCount : Nat) (row : RawRow) :
    Option Mention :=
  let rawDate :=
    match foundDateKey row with
    | some k => (rowGet row k).getD ""
    | none => nowISO
  let normalizedDate := normalizeDate rawDate
  let content := contentOf row
  if content ≠ "" then
    some { id := "csv-row-" ++ toString rowCount, content := content,
           date := normalizedDate, source := platform }
  else none

/-! ### Persistence writer (lines 276-292 of `server.ts`) -/

/-- A row of the `reviews` table as inserted by the upload handler. -/
structure StoredReview where
  platform : String
  content : String
  date : String
  sentiment : String
  entity : String
  score : Rat
  deriving DecidableEq

/-- The transaction body: for each item try the insert; a failing insert is
caught, logged and skipped, and the loop continues.  `insertOk` tells which
inserts succeed; the returned list is the rows actually stored, in order. -/
def runTransaction (insertOk : StoredReview → Bool) : List StoredReview → List StoredReview
  | [] => []
  | item :: rest =>
    if insertOk item then item :: runTransaction insertOk rest
    else runTransaction insertOk rest

/-- The count reported by the success response (line 292):
`reviewsToStore.length`, the number of rows submitted to the transaction. -/
def uploadResponseCount (reviewsToStore : List StoredReview) : Nat :=
  reviewsToStore.length

/-! ### Read-side queries (`/api/data` and `/api/trends`) -/

/-- SQLite TEXT comparison (bytewise; on these strings, codepointwise
lexicographic) as a boolean `a <= b`. -/
def charsLe : List Char → List Char → Bool
  | [], _ => true
  | _ :: _, [] => false
  | a :: as, b :: bs =>
    if a = b then charsLe as bs else decide (a < b)

/-- `a <= b` on TEXT values. -/
def strLe (a b : String) : Bool := charsLe a.data b.data

/-- `strftime('%Y-%m', date)` for a `YYYY-MM-DD` TEXT date: its first seven
characters. -/
def monthOf (date : String) : String := String.mk (date.data.take 7)

/-- One output row of the `/api/trends` query. -/
structure TrendRow where
  month : String
  count : Nat
  positive : Nat
  neutral : Nat
  negative : Nat
  deriving DecidableEq

/-- Ascending TEXT order on months (`ORDER BY month`). -/
def monthLe (a b : String) : Prop := strLe a b = true

instance : DecidableRel monthLe := fun a b => instDecidableEqBool (strLe a b) true

/-- `SUM(CASE WHEN sentiment = s THEN 1 ELSE 0 END)`. -/
def sentimentCount (rows : List StoredReview) (s : String) : Nat :=
  (rows.filter (fun r => r.sentiment == s)).length

/-- The `WHERE date >= strftime('%Y-%m-%d', 'now', '-6 months')` filter;
`cutoff` is the `YYYY-MM-DD` date exactly six months before the current
date. -/
def trendsFiltered (cutoff : String) (rows : List StoredReview) : List StoredReview :=
  rows.filter (fun r => strLe cutoff r.date)

/-- The `/api/trends` query (lines 375-389 of `server.ts`): group the rows on
or after the cutoff by calendar month, count per sentiment, order by month
ascending. -/
def getTrends (cutoff : String) (rows : List StoredReview) : List TrendRow :=
  let filtered := trendsFiltered cutoff rows
  let months := List.insertionSort monthLe ((filtered.map (fun r => monthOf r.date)).dedup)
  months.map (fun m =>
    let inMonth := filtered.filter (fun r => monthOf r.date == m)
    { month := m, count := inMonth.length,
      positive := sentimentCount inMonth "positive",
      neutral := sentimentCount inMonth "neutral",
      negative := sentimentCount inMonth "negative" })

/-- `['positive', 'negative', 'neutral'].includes(sentimentFilter)`;
`sentimentFilter` is `none` when the query parameter is absent. -/
def validSentimentFilter (f : Option String) : Bool :=
  match f with
  | some s => ["positive", "negative", "neutral"].contains s
  | none => false

/-- Descending date order (`ORDER BY date DESC`). -/
def dateDesc (a b : StoredReview) : Prop := strLe b.date a.date = true

instance : DecidableRel dateDesc := fun a b => instDecidableEqBool (strLe b.date a.date) true

/-- The review listing of `/api/data` (lines 317-327 of `server.ts`): filter by
sentiment only when the parameter is one of the three literals, then order by
date descending. -/
def apiData (sentimentFilter : Option String) (rows : List StoredReview) : List StoredReview :=
  let rows2 :=
    if validSentimentFilter sentimentFilter then
      rows.filter (fun r => some r.sentiment == sentimentFilter)
    else rows
  List.insertionSort dateDesc rows2

/-- A concrete normalized review used to instantiate general theorems. -/
def sampleMention : Mention :=
  { id := "csv-row-1", source := "CSV", content := "enak banget", date := "2025-09-15" }

/-- A second concrete normalized review. -/
def sampleMention2 : Mention :=
  { id := "csv-row-2", source := "CSV", content := "lelet banget", date := "2025-09-16" }

/-- A model-response entry carrying an out-of-range score. -/
def entryScore15 : ParsedEntry :=
  { mentionId := some "csv-row-1", sentiment := some "positive",
    score := some ((3 : Rat) / 2), entity := some "Quality" }

/-- A model-response entry carrying an entity outside the taxonomy. -/
def entryMakanan : ParsedEntry :=
  { mentionId := some "csv-row-1", sentiment := some "positive",
    score := some ((4 : Rat) / 5), entity := some "Makanan" }

/-- The six-value entity taxonomy of the specification. -/
def entityTaxonomy : List String :=
  ["Quality", "Service", "Price", "Ambiance", "Location", "General"]

/-- A concrete stored review whose insert succeeds in the C7 scenario. -/
def goodRow : StoredReview :=
  { platform := "CSV", content := "enak", date := "2025-09-15",
    sentiment := "positive", entity := "Quality", score := (4 : Rat) / 5 }

/-- A concrete stored review whose insert fails in the C7 scenario. -/
def badRow : StoredReview :=
  { platform := "CSV", content := "bad", date := "2025-09-16",
    sentiment := "neutral", entity := "General", score := (1 : Rat) / 2 }

/-- A stored review with the given date, for the trends scenarios. -/
def storedOn (d : String) : StoredReview :=
  { platform := "CSV", content := "c", date := d,
    sentiment := "neutral", entity := "General", score := (1 : Rat) / 2 }

/-- Stored reviews whose dates span eight calendar months (March to October
2025). -/
def trendRows8 : List StoredReview :=
  [storedOn "2025-03-01", storedOn "2025-04-15", storedOn "2025-05-01",
   storedOn "2025-06-01", storedOn "2025-07-01", storedOn "2025-08-01",
   storedOn "2025-09-01", storedOn "2025-10-01"]

theorem reconcileOne_mentionId (parsed : List ParsedEntry) (m : Mention) :
    (reconcileOne parsed m).mentionId = m.id := by
  unfold reconcileOne
  cases hfind : parsed.find? (fun p => p.mentionId == some m.id) with
  | none => rfl
  | some found =>
    have hp := List.find?_some hfind
    have : found.mentionId = some m.id := by
      simpa using hp
    simp [this, jsStrOr]

theorem mergeBatch_ids (mentions : List Mention) (parsed : List ParsedEntry) :
    (mergeBatch mentions parsed).map (·.mentionId) = mentions.map (·.id) := by
  unfold mergeBatch
  rw [List.map_map]
  exact List.map_congr_left fun m _ => reconcileOne_mentionId parsed m

theorem analyzeBatch_ids (hasApiKey : Bool) (oracle : Nat → ApiOutcome)
    (mentions : List Mention) (retryCount : Nat) :
    ((analyzeBatch hasApiKey oracle mentions retryCount).1).map (·.mentionId) =
      mentions.map (·.id) := by
  induction retryCount using analyzeBatch.induct hasApiKey oracle mentions with
  | case1 x hk =>
    rw [analyzeBatch.eq_def]
    simp [hk, noKeyResult]
  | case2 x hk parsed ho =>
    rw [analyzeBatch.eq_def]
    simp [hk, ho, mergeBatch_ids]
  | case3 x hk ho =>
    rw [analyzeBatch.eq_def]
    simp [hk, ho, defaultResult]
  | case4 x hk ho hlt ih =>
    rw [analyzeBatch.eq_def]
    simpa [hk, ho, hlt] using ih
  | case5 x hk ho hlt =>
    rw [analyzeBatch.eq_def]
    simp [hk, ho, hlt, defaultResult]
  | case6 x hk ho =>
    rw [analyzeBatch.eq_def]
    simp [hk, ho, defaultResult]

/-! ### One-step unfolding lemmas for `analyzeBatch` -/

theorem analyzeBatch_noKey (oracle : Nat → ApiOutcome) (mentions : List Mention) (rc : Nat) :
    analyzeBatch false oracle mentions rc = (mentions.map noKeyResult, []) := by
  rw [analyzeBatch.eq_def]
  simp

theorem analyzeBatch_ok (oracle : Nat → ApiOutcome) (mentions : List Mention) (rc : Nat)
    (parsed : List ParsedEntry) (h : oracle rc = .ok parsed) :
    analyzeBatch true oracle mentions rc = (mergeBatch mentions parsed, []) := by
  rw [analyzeBatch.eq_def]
  simp [h]

theorem analyzeBatch_notArray (oracle : Nat → ApiOutcome) (mentions : List Mention) (rc : Nat)
    (h : oracle rc = .notArray) :
    analyzeBatch true oracle mentions rc = (mentions.map defaultResult, []) := by
  rw [analyzeBatch.eq_def]
  simp [h]

theorem analyzeBatch_otherError (oracle : Nat → ApiOutcome) (mentions : List Mention) (rc : Nat)
    (h : oracle rc = .otherError) :
    analyzeBatch true oracle mentions rc = (mentions.map defaultResult, []) := by
  rw [analyzeBatch.eq_def]
  simp [h]

theorem analyzeBatch_retry (oracle : Nat → ApiOutcome) (mentions : List Mention) (rc : Nat)
    (h : oracle rc = .rateLimit) (hlt : rc < 3) :
    analyzeBatch true oracle mentions rc =
      ((analyzeBatch true oracle mentions (rc + 1)).1,
        2 ^ rc * 15000 :: (analyzeBatch true oracle mentions (rc + 1)).2) := by
  conv_lhs => rw [analyzeBatch.eq_def]
  simp [h, hlt]

theorem analyzeBatch_exhausted (oracle : Nat → ApiOutcome) (mentions : List Mention) (rc : Nat)
    (h : oracle rc = .rateLimit) (hge : ¬ rc < 3) :
    analyzeBatch true oracle mentions rc = (mentions.map defaultResult, []) := by
  rw [analyzeBatch.eq_def]
  simp [h, hge]

/-! ### C1: one result per submitted review -/

/-- C1: for every batch submitted to `analyzeBatch`, the result list has the
same length as the input, its `mentionId`s are the input ids in order, and
when the input ids are pairwise distinct (as the `csv-row-<n>` ids of one
upload are) every input review's id occurs exactly once among the results —
whatever the model response omits, duplicates or mismatches, and in every
fallback branch. -/
theorem C1_exactly_one_result_per_review (hasApiKey : Bool) (oracle : Nat → ApiOutcome)
    (mentions : List Mention) (hnd : (mentions.map (·.id)).Nodup) :
    ((analyzeBatch hasApiKey oracle mentions 0).1).length = mentions.length ∧
    ((analyzeBatch hasApiKey oracle mentions 0).1).map (·.mentionId) = mentions.map (·.id) ∧
    ∀ m ∈ mentions,
      (((analyzeBatch hasApiKey oracle mentions 0).1).map (·.mentionId)).count m.id = 1 := by
  have hids := analyzeBatch_ids hasApiKey oracle mentions 0
  refine ⟨?_, hids, ?_⟩
  · have hlen := congrArg List.length hids
    simpa using hlen
  · intro m hm
    rw [hids]
    exact List.count_eq_one_of_mem hnd (List.mem_map_of_mem _ hm)

/-- C1 witness: a concrete two-review batch against a duplicated, mismatched
model response. -/
theorem C1_witness :
    ((analyzeBatch true (fun _ => ApiOutcome.ok [entryScore15, entryScore15])
        [sampleMention, sampleMention2] 0).1).length = [sampleMention, sampleMention2].length ∧
    ((analyzeBatch true (fun _ => ApiOutcome.ok [entryScore15, entryScore15])
        [sampleMention, sampleMention2] 0).1).map (·.mentionId) =
      [sampleMention, sampleMention2].map (·.id) ∧
    ∀ m ∈ [sampleMention, sampleMention2],
      (((analyzeBatch true (fun _ => ApiOutcome.ok [entryScore15, entryScore15])
          [sampleMention, sampleMention2] 0).1).map (·.mentionId)).count m.id = 1 :=
  C1_exactly_one_result_per_review true (fun _ => ApiOutcome.ok [entryScore15, entryScore15])
    [sampleMention, sampleMention2] (by decide)

/-! ### C3: score range and defaults (corrected) -/

/-- C3 counterexample: with no API key configured the returned score is `0`,
not `0.5`; and a numeric model score outside `[0, 1]` (here `1.5`) is passed
through without clamping. -/
theorem C3_counterexample :
    (((analyzeBatch false (fun _ => ApiOutcome.otherError) [sampleMention] 0).1).map (·.score) =
        [0] ∧ (0 : Rat) ≠ 1 / 2) ∧
    (((analyzeBatch true (fun _ => ApiOutcome.ok [entryScore15]) [sampleMention] 0).1).map
        (·.score) = [3 / 2] ∧ ¬ ((3 : Rat) / 2 ≤ 1)) := by
  refine ⟨⟨?_, by norm_num⟩, ?_, by norm_num⟩
  · rw [analyzeBatch_noKey]
    rfl
  · rw [analyzeBatch_ok _ _ _ [entryScore15] rfl]
    rfl

theorem reconcileOne_score (parsed : List ParsedEntry) (m : Mention) :
    (reconcileOne parsed m).score = 1 / 2 ∨
      ∃ e ∈ parsed, e.score = some (reconcileOne parsed m).score := by
  unfold reconcileOne
  cases hfind : parsed.find? (fun p => p.mentionId == some m.id) with
  | none =>
    left
    rfl
  | some found =>
    cases hs : found.score with
    | none =>
      left
      simp [hs]
    | some q =>
      right
      exact ⟨found, List.mem_of_find?_eq_some hfind, by simp [hs]⟩

theorem analyzeBatch_score_mem (hasApiKey : Bool) (oracle : Nat → ApiOutcome)
    (mentions : List Mention) (retryCount : Nat) :
    ∀ r ∈ (analyzeBatch hasApiKey oracle mentions retryCount).1,
      r.score = 0 ∨ r.score = 1 / 2 ∨
        ∃ n parsed e, oracle n = .ok parsed ∧ e ∈ parsed ∧ e.score = some r.score := by
  induction retryCount using analyzeBatch.induct hasApiKey oracle mentions with
  | case1 x hk =>
    subst hk
    rw [analyzeBatch_noKey]
    intro r hr
    simp only [List.mem_map] at hr
    obtain ⟨m, _, rfl⟩ := hr
    left
    rfl
  | case2 x hk parsed ho =>
    rw [Bool.not_eq_false] at hk
    subst hk
    rw [analyzeBatch_ok _ _ _ parsed ho]
    intro r hr
    simp only [mergeBatch, List.mem_map] at hr
    obtain ⟨m, _, rfl⟩ := hr
    rcases reconcileOne_score parsed m with h | ⟨e, he, hs⟩
    · right; left; exact h
    · right; right; exact ⟨x, parsed, e, ho, he, hs⟩
  | case3 x hk ho =>
    rw [Bool.not_eq_false] at hk
    subst hk
    rw [analyzeBatch_notArray _ _ _ ho]
    intro r hr
    simp only [List.mem_map] at hr
    obtain ⟨m, _, rfl⟩ := hr
    right; left; rfl
  | case4 x hk ho hlt ih =>
    rw [Bool.not_eq_false] at hk
    subst hk
    rw [analyzeBatch_retry _ _ _ ho hlt]
    exact ih
  | case5 x hk ho hlt =>
    rw [Bool.not_eq_false] at hk
    subst hk
    rw [analyzeBatch_exhausted _ _ _ ho hlt]
    intro r hr
    simp only [List.mem_map] at hr
    obtain ⟨m, _, rfl⟩ := hr
    right; left; rfl
  | case6 x hk ho =>
    rw [Bool.not_eq_false] at hk
    subst hk
    rw [analyzeBatch_otherError _ _ _ ho]
    intro r hr
    simp only [List.mem_map] at hr
    obtain ⟨m, _, rfl⟩ := hr
    right; left; rfl

/-- C3 (amended): scores are in `[0, 1]` exactly when the model's numeric
scores are (the code does not clamp); a missing or non-numeric score in the
parsed response defaults to `0.5`, as does an unmatched review; but with no
API key configured every score is `0`, not `0.5`. -/
theorem C3_amended (hasApiKey : Bool) (oracle : Nat → ApiOutcome) (mentions : List Mention)
    (hbound : ∀ n parsed, oracle n = .ok parsed →
      ∀ e ∈ parsed, ∀ q, e.score = some q → 0 ≤ q ∧ q ≤ 1) :
    (∀ r ∈ (analyzeBatch hasApiKey oracle mentions 0).1, 0 ≤ r.score ∧ r.score ≤ 1) ∧
    (∀ r ∈ (analyzeBatch false oracle mentions 0).1, r.score = 0) ∧
    (∀ parsed, ∀ m : Mention, ∀ found,
      parsed.find? (fun p => p.mentionId == some m.id) = some found →
      found.score = none → (reconcileOne parsed m).score = 1 / 2) ∧
    (∀ parsed, ∀ m : Mention,
      parsed.find? (fun p => p.mentionId == some m.id) = none →
      (reconcileOne parsed m).score = 1 / 2) := by
  refine ⟨?_, ?_, ?_, ?_⟩
  · intro r hr
    rcases analyzeBatch_score_mem hasApiKey oracle mentions 0 r hr with h | h | ⟨n, parsed, e, ho, he, hs⟩
    · rw [h]; norm_num
    · rw [h]; norm_num
    · exact hbound n parsed ho e he r.score hs
  · rw [analyzeBatch_noKey]
    intro r hr
    simp only [List.mem_map] at hr
    obtain ⟨m, _, rfl⟩ := hr
    rfl
  · intro parsed m found hfind hs
    unfold reconcileOne
    rw [hfind]
    simp [hs]
  · intro parsed m hfind
    unfold reconcileOne
    rw [hfind]
    rfl

/-- C3 witness: the amendment instantiated on a one-review batch whose model
response carries the in-range score `0.8`. -/
theorem C3_amended_witness :
    (∀ r ∈ (analyzeBatch true (fun _ => ApiOutcome.ok [entryMakanan]) [sampleMention] 0).1,
      0 ≤ r.score ∧ r.score ≤ 1) ∧
    (∀ r ∈ (analyzeBatch false (fun _ => ApiOutcome.ok [entryMakanan]) [sampleMention] 0).1,
      r.score = 0) ∧
    (∀ parsed, ∀ m : Mention, ∀ found,
      parsed.find? (fun p => p.mentionId == some m.id) = some found →
      found.score = none → (reconcileOne parsed m).score = 1 / 2) ∧
    (∀ parsed, ∀ m : Mention,
      parsed.find? (fun p => p.mentionId == some m.id) = none →
      (reconcileOne parsed m).score = 1 / 2) :=
  C3_amended true (fun _ => ApiOutcome.ok [entryMakanan]) [sampleMention]
    (by
      intro n parsed h e he q hq
      cases h
      simp only [List.mem_singleton] at he
      subst he
      cases hq
      norm_num)

/-! ### C4: entity taxonomy (corrected) -/

/-- C4 counterexample: the model entity `"Makanan"`, outside the six-value
taxonomy, is returned verbatim — the code never checks the taxonomy. -/
theorem C4_counterexample :
    ((analyzeBatch true (fun _ => ApiOutcome.ok [entryMakanan]) [sampleMention] 0).1).map
        (·.entity) = ["Makanan"] ∧
    "Makanan" ∉ entityTaxonomy := by
  refine ⟨?_, by decide⟩
  rw [analyzeBatch_ok _ _ _ [entryMakanan] rfl]
  decide

theorem reconcileOne_entity (parsed : List ParsedEntry) (m : Mention) :
    (reconcileOne parsed m).entity = "General" ∨
      ∃ e ∈ parsed, e.entity = some (reconcileOne parsed m).entity ∧
        jsTrim (reconcileOne parsed m).entity ≠ "" := by
  unfold reconcileOne
  cases hfind : parsed.find? (fun p => p.mentionId == some m.id) with
  | none =>
    left
    rfl
  | some found =>
    cases he : found.entity with
    | none =>
      left
      simp [he]
    | some s =>
      by_cases hs : jsTrim s ≠ ""
      · right
        exact ⟨found, List.mem_of_find?_eq_some hfind, by simp [he, hs]⟩
      · left
        simp [he, hs]

theorem analyzeBatch_entity_mem (hasApiKey : Bool) (oracle : Nat → ApiOutcome)
    (mentions : List Mention) (retryCount : Nat) :
    ∀ r ∈ (analyzeBatch hasApiKey oracle mentions retryCount).1,
      r.entity = "General" ∨
        ∃ n parsed e, oracle n = .ok parsed ∧ e ∈ parsed ∧
          e.entity = some r.entity ∧ jsTrim r.entity ≠ "" := by
  induction retryCount using analyzeBatch.induct hasApiKey oracle mentions with
  | case1 x hk =>
    subst hk
    rw [analyzeBatch_noKey]
    intro r hr
    simp only [List.mem_map] at hr
    obtain ⟨m, _, rfl⟩ := hr
    left
    rfl
  | case2 x hk parsed ho =>
    rw [Bool.not_eq_false] at hk
    subst hk
    rw [analyzeBatch_ok _ _ _ parsed ho]
    intro r hr
    simp only [mergeBatch, List.mem_map] at hr
    obtain ⟨m, _, rfl⟩ := hr
    rcases reconcileOne_entity parsed m with h | ⟨e, he, hs, hne⟩
    · left; exact h
    · right; exact ⟨x, parsed, e, ho, he, hs, hne⟩
  | case3 x hk ho =>
    rw [Bool.not_eq_false] at hk
    subst hk
    rw [analyzeBatch_notArray _ _ _ ho]
    intro r hr
    simp only [List.mem_map] at hr
    obtain ⟨m, _, rfl⟩ := hr
    left; rfl
  | case4 x hk ho hlt ih =>
    rw [Bool.not_eq_false] at hk
    subst hk
    rw [analyzeBatch_retry _ _ _ ho hlt]
    exact ih
  | case5 x hk ho hlt =>
    rw [Bool.not_eq_false] at hk
    subst hk
    rw [analyzeBatch_exhausted _ _ _ ho hlt]
    intro r hr
    simp only [List.mem_map] at hr
    obtain ⟨m, _, rfl⟩ := hr
    left; rfl
  | case6 x hk ho =>
    rw [Bool.not_eq_false] at hk
    subst hk
    rw [analyzeBatch_otherError _ _ _ ho]
    intro r hr
    simp only [List.mem_map] at hr
    obtain ⟨m, _, rfl⟩ := hr
    left; rfl

/-- C4 (amended): every returned entity is either `"General"` or exactly the
model's non-blank string for that review — the taxonomy is not enforced; a
missing, non-string or blank entity becomes `"General"`, and so does every
fallback result. -/
theorem C4_amended (hasApiKey : Bool) (oracle : Nat → ApiOutcome) (mentions : List Mention) :
    (∀ r ∈ (analyzeBatch hasApiKey oracle mentions 0).1,
      r.entity = "General" ∨
        ∃ n parsed e, oracle n = .ok parsed ∧ e ∈ parsed ∧
          e.entity = some r.entity ∧ jsTrim r.entity ≠ "") ∧
    (∀ parsed, ∀ m : Mention, ∀ found s,
      parsed.find? (fun p => p.mentionId == some m.id) = some found →
      found.entity = some s → jsTrim s ≠ "" → (reconcileOne parsed m).entity = s) ∧
    (∀ parsed, ∀ m : Mention, ∀ found,
      parsed.find? (fun p => p.mentionId == some m.id) = some found →
      (found.entity = none ∨ ∃ s, found.entity = some s ∧ jsTrim s = "") →
      (reconcileOne parsed m).entity = "General") := by
  refine ⟨analyzeBatch_entity_mem hasApiKey oracle mentions 0, ?_, ?_⟩
  · intro parsed m found s hfind he hs
    unfold reconcileOne
    rw [hfind]
    simp [he, hs]
  · intro parsed m found hfind hcase
    unfold reconcileOne
    rw [hfind]
    rcases hcase with he | ⟨s, he, hs⟩
    · simp [he]
    · simp [he, hs]

/-! ### C6: rate-limit retry policy -/

/-- C6: when every attempt fails with the rate-limit signal, `analyzeBatch`
sleeps 15s, 30s and 60s before the three retries and then returns one default
result (`neutral`, `0.5`, `General`) per input review; an error of any other
class yields the same defaults at once — in neither case is an error
propagated. -/
theorem C6_retry_policy (mentions : List Mention) (oracle oracle2 : Nat → ApiOutcome)
    (h429 : ∀ n, n ≤ 3 → oracle n = .rateLimit)
    (hother : oracle2 0 = .otherError) :
    analyzeBatch true oracle mentions 0 = (mentions.map defaultResult, [15000, 30000, 60000]) ∧
    analyzeBatch true oracle2 mentions 0 = (mentions.map defaultResult, []) ∧
    ∀ m : Mention, defaultResult m =
      { mentionId := m.id, sentiment := .neutral, score := 1 / 2, entity := "General" } := by
  refine ⟨?_, analyzeBatch_otherError _ _ _ hother, fun m => rfl⟩
  rw [analyzeBatch_retry _ _ 0 (h429 0 (by omega)) (by omega),
      analyzeBatch_retry _ _ 1 (h429 1 (by omega)) (by omega),
      analyzeBatch_retry _ _ 2 (h429 2 (by omega)) (by omega),
      analyzeBatch_exhausted _ _ 3 (h429 3 (by omega)) (by omega)]
  norm_num

/-- C6 witness: the retry policy on a concrete one-review batch under an
always-rate-limited oracle, and under an immediately failing one. -/
theorem C6_witness :
    analyzeBatch true (fun _ => ApiOutcome.rateLimit) [sampleMention] 0 =
      ([sampleMention].map defaultResult, [15000, 30000, 60000]) ∧
    analyzeBatch true (fun _ => ApiOutcome.otherError) [sampleMention] 0 =
      ([sampleMention].map defaultResult, []) :=
  ⟨(C6_retry_policy [sampleMention] (fun _ => ApiOutcome.rateLimit)
      (fun _ => ApiOutcome.otherError) (fun _ _ => rfl) rfl).1,
   (C6_retry_policy [sampleMention] (fun _ => ApiOutcome.rateLimit)
      (fun _ => ApiOutcome.otherError) (fun _ _ => rfl) rfl).2.1⟩

/-! ### C2: the batching loop -/

theorem chunked_nil : chunked [] = [] := by
  rw [chunked.eq_def]

theorem chunked_cons (m : Mention) (rest : List Mention) :
    chunked (m :: rest) =
      (m :: rest).take BATCH_SIZE :: chunked ((m :: rest).drop BATCH_SIZE) := by
  rw [chunked.eq_def]

theorem batchLoop_nil (classify : List Mention → List SentimentAnalysis) :
    batchLoop classify [] = ([], 0) := by
  rw [batchLoop.eq_def]

theorem batchLoop_cons (classify : List Mention → List SentimentAnalysis)
    (m : Mention) (rest : List Mention) :
    batchLoop classify (m :: rest) =
      (classify ((m :: rest).take BATCH_SIZE) ++
          (batchLoop classify ((m :: rest).drop BATCH_SIZE)).1,
        (batchLoop classify ((m :: rest).drop BATCH_SIZE)).2 + 1) := by
  conv_lhs => rw [batchLoop.eq_def]

theorem chunked_join (ms : List Mention) : (chunked ms).flatten = ms := by
  induction ms using chunked.induct with
  | case1 => rw [chunked_nil]; rfl
  | case2 m rest ih =>
    rw [chunked_cons]
    simp only [List.flatten]
    rw [ih, List.take_append_drop]

theorem batchLoop_eq_chunked (classify : List Mention → List SentimentAnalysis)
    (ms : List Mention) :
    batchLoop classify ms = (((chunked ms).map classify).flatten, (chunked ms).length) := by
  induction ms using chunked.induct with
  | case1 => rw [batchLoop_nil, chunked_nil]; rfl
  | case2 m rest ih =>
    rw [batchLoop_cons, chunked_cons, ih]
    simp

theorem chunked_size (ms : List Mention) :
    ∀ c ∈ chunked ms, c.length ≤ BATCH_SIZE ∧ c ≠ [] := by
  induction ms using chunked.induct with
  | case1 => rw [chunked_nil]; intro c hc; cases hc
  | case2 m rest ih =>
    rw [chunked_cons]
    intro c hc
    rcases List.mem_cons.mp hc with rfl | hc
    · constructor
      · exact List.length_take_le BATCH_SIZE (m :: rest)
      · simp [BATCH_SIZE]
    · exact ih c hc

theorem chunked_ne_nil (ms : List Mention) (hne : ms ≠ []) : chunked ms ≠ [] := by
  cases ms with
  | nil => exact absurd rfl hne
  | cons m rest => rw [chunked_cons]; simp

theorem chunked_dropLast (ms : List Mention) :
    ∀ c ∈ (chunked ms).dropLast, c.length = BATCH_SIZE := by
  induction ms using chunked.induct with
  | case1 => rw [chunked_nil]; intro c hc; cases hc
  | case2 m rest ih =>
    rw [chunked_cons]
    cases htl : chunked ((m :: rest).drop BATCH_SIZE) with
    | nil => intro c hc; simp at hc
    | cons c2 cs =>
      intro c hc
      rw [List.dropLast_cons_of_ne_nil (by simp)] at hc
      rcases List.mem_cons.mp hc with rfl | hc
      · have hdrop : (m :: rest).drop BATCH_SIZE ≠ [] := by
          intro h0
          rw [h0, chunked_nil] at htl
          exact List.cons_ne_nil c2 cs htl.symm
        have hlen : BATCH_SIZE ≤ (m :: rest).length := by
          by_contra hlt
          exact hdrop (List.drop_eq_nil_of_le (by omega))
        rw [List.length_take]
        omega
      · exact ih c (htl ▸ hc)

/-- C2: the upload loop partitions the normalized reviews into consecutive
batches of size 15 in order (`BATCH_SIZE = 15`; all batches are non-empty, all
but the last have exactly 15 reviews, and their concatenation is the input),
the final result list is the concatenation of the per-batch classifier results
in original order, and on the empty review set the loop returns an empty
result list having made no classifier call. -/
theorem C2_batch_partition (classify : List Mention → List SentimentAnalysis)
    (mentions : List Mention) :
    BATCH_SIZE = 15 ∧
    (chunked mentions).flatten = mentions ∧
    (∀ c ∈ chunked mentions, c.length ≤ BATCH_SIZE ∧ c ≠ []) ∧
    (∀ c ∈ (chunked mentions).dropLast, c.length = BATCH_SIZE) ∧
    batchLoop classify mentions =
      (((chunked mentions).map classify).flatten, (chunked mentions).length) ∧
    batchLoop classify [] = ([], 0) :=
  ⟨rfl, chunked_join mentions, chunked_size mentions, chunked_dropLast mentions,
    batchLoop_eq_chunked classify mentions, batchLoop_nil classify⟩

/-! ### C5: content-column aliases (corrected) -/

theorem C5_counterexample :
    contentOf [("review", "nice")] = "" ∧
    normalizeRow "CSV" "2025-10-11T08:30:00.000Z" 1 [("review", "nice")] = none ∧
    ("nice" : String) ≠ "" := by
  refine ⟨by decide, ?_, by decide⟩
  decide

theorem contentOf_eq_jsChain (row : RawRow) : contentOf row = jsChain row contentAliases := by
  simp [contentOf, jsChain, contentAliases]

theorem jsChain_eq_specFirstNonEmpty (row : RawRow) (ks : List String) :
    jsChain row ks = specFirstNonEmpty row ks := by
  induction ks with
  | nil => rfl
  | cons k ks ih =>
    simp only [jsChain, specFirstNonEmpty]
    cases hk : rowGet row k with
    | none => simp [jsStrOr, ih]
    | some v =>
      by_cases hv : v = ""
      · subst hv
        simp [jsStrOr, ih]
      · simp [jsStrOr, hv]

theorem jsChain_empty (row : RawRow) (ks : List String)
    (h : ∀ k ∈ ks, jsStrOr (rowGet row k) "" = "") :
    jsChain row ks = "" := by
  induction ks with
  | nil => rfl
  | cons k ks ih =>
    have hk := h k (List.mem_cons_self k ks)
    simp only [jsChain]
    cases hg : rowGet row k with
    | none =>
      simp only [jsStrOr]
      exact ih fun k2 hk2 => h k2 (List.mem_cons_of_mem k hk2)
    | some v =>
      rw [hg] at hk
      simp only [jsStrOr] at hk ⊢
      split at hk
      · next hv =>
          rw [if_pos hv]
          exact ih fun k2 hk2 => h k2 (List.mem_cons_of_mem k hk2)
      · next hv => exact absurd hk hv

/-- C5 (amended): the content is the first non-empty value among the columns
`content, text, Review, comment, caption` — `Review` with a capital `R`,
matched case-sensitively — in that priority order; a row none of whose alias
columns carries a non-empty value (in particular a row whose only
content-bearing column is named exactly `review`, in lowercase) produces no
normalized record. -/
theorem C5_amended (platform nowISO : String) (n : Nat) (row : RawRow) :
    contentOf row = specFirstNonEmpty row contentAliases ∧
    ((∀ k ∈ contentAliases, jsStrOr (rowGet row k) "" = "") →
      normalizeRow platform nowISO n row = none) := by
  constructor
  · rw [contentOf_eq_jsChain]
    exact jsChain_eq_specFirstNonEmpty row contentAliases
  · intro h
    have hc : contentOf row = "" := by
      rw [contentOf_eq_jsChain]
      exact jsChain_empty row contentAliases h
    unfold normalizeRow
    simp [hc]

/-- C5 witness: the amendment instantiated on the lowercase-`review` row. -/
theorem C5_witness :
    contentOf [("review", "nice")] = specFirstNonEmpty [("review", "nice")] contentAliases ∧
    ((∀ k ∈ contentAliases, jsStrOr (rowGet [("review", "nice")] k) "" = "") →
      normalizeRow "CSV" "2025-10-11T08:30:00.000Z" 1 [("review", "nice")] = none) :=
  C5_amended "CSV" "2025-10-11T08:30:00.000Z" 1 [("review", "nice")]

/-! ### C7: persistence writer and reported count (corrected) -/

theorem runTransaction_eq_filter (ok : StoredReview → Bool) (items : List StoredReview) :
    runTransaction ok items = items.filter ok := by
  induction items with
  | nil => rfl
  | cons i rest ih =>
    by_cases h : ok i <;> simp [runTransaction, List.filter, h, ih]

/-- C7 counterexample: of two submitted rows one insert fails and is skipped,
so only one row is stored, yet the success response reports 2 — the number of
rows submitted, not the number stored. -/
theorem C7_counterexample :
    (runTransaction (fun r => r.content != "bad") [goodRow, badRow]).length = 1 ∧
    uploadResponseCount [goodRow, badRow] = 2 ∧
    (1 : Nat) ≠ 2 := by
  refine ⟨?_, rfl, by decide⟩
  decide

/-- C7 (amended): within the one transaction a failing per-row insert is
skipped without aborting the remaining inserts (the stored rows are exactly
the submitted rows whose insert succeeds, in order), but the success response
reports the number of rows submitted, which equals the number actually stored
only when every insert succeeds. -/
theorem C7_amended (insertOk : StoredReview → Bool) (items : List StoredReview) :
    runTransaction insertOk items = items.filter insertOk ∧
    uploadResponseCount items = items.length ∧
    ((∀ i ∈ items, insertOk i = true) →
      (runTransaction insertOk items).length = uploadResponseCount items) := by
  refine ⟨runTransaction_eq_filter insertOk items, rfl, ?_⟩
  intro hall
  rw [runTransaction_eq_filter, List.filter_eq_self.mpr hall]
  rfl

/-- C7 witness: the amendment instantiated on the two-row scenario. -/
theorem C7_witness :
    runTransaction (fun r => r.content != "bad") [goodRow, badRow] =
      [goodRow, badRow].filter (fun r => r.content != "bad") ∧
    uploadResponseCount [goodRow, badRow] = [goodRow, badRow].length ∧
    ((∀ i ∈ [goodRow, badRow], (fun r => r.content != "bad") i = true) →
      (runTransaction (fun r => r.content != "bad") [goodRow, badRow]).length =
        uploadResponseCount [goodRow, badRow]) :=
  C7_amended (fun r => r.content != "bad") [goodRow, badRow]

/-! ### C8: date normalization -/

theorem takeWhile_append_all (p : Char → Bool) (l r : List Char)
    (h : ∀ c ∈ l, p c = true) :
    (l ++ r).takeWhile p = l ++ r.takeWhile p := by
  induction l with
  | nil => rfl
  | cons a l ih =>
    have ha := h a (List.mem_cons_self a l)
    simp only [List.cons_append, List.takeWhile_cons, ha, if_true]
    rw [ih fun c hc => h c (List.mem_cons_of_mem a hc)]

theorem takeWhile_all (p : Char → Bool) (l : List Char) (h : ∀ c ∈ l, p c = true) :
    l.takeWhile p = l := by
  have := takeWhile_append_all p l [] h
  simpa using this

theorem isDigit_ne_sep (c : Char) (h : c.isDigit = true) : c ≠ 'T' ∧ c ≠ ' ' := by
  constructor <;> rintro rfl <;> exact absurd h (by decide)

theorem matchesYMD_not_sep (l : List Char) (hm : matchesYMD l = true) (hlen : l.length = 10) :
    ∀ c ∈ l, c ≠ 'T' ∧ c ≠ ' ' := by
  cases l with
  | nil => simp at hlen
  | cons c0 t0 =>
  cases t0 with
  | nil => simp at hlen
  | cons c1 t1 =>
  cases t1 with
  | nil => simp at hlen
  | cons c2 t2 =>
  cases t2 with
  | nil => simp at hlen
  | cons c3 t3 =>
  cases t3 with
  | nil => simp at hlen
  | cons c4 t4 =>
  cases t4 with
  | nil => simp at hlen
  | cons c5 t5 =>
  cases t5 with
  | nil => simp at hlen
  | cons c6 t6 =>
  cases t6 with
  | nil => simp at hlen
  | cons c7 t7 =>
  cases t7 with
  | nil => simp at hlen
  | cons c8 t8 =>
  cases t8 with
  | nil => simp at hlen
  | cons c9 t9 =>
  cases t9 with
  | cons c10 t10 => simp at hlen
  | nil =>
    simp only [matchesYMD, Bool.and_eq_true, beq_iff_eq] at hm
    obtain ⟨⟨⟨⟨⟨⟨⟨⟨⟨h0, h1⟩, h2⟩, h3⟩, h4⟩, h5⟩, h6⟩, h7⟩, h8⟩, h9⟩ := hm
    intro c hc
    simp only [List.mem_cons, List.not_mem_nil, or_false] at hc
    rcases hc with rfl | rfl | rfl | rfl | rfl | rfl | rfl | rfl | rfl | rfl
    · exact isDigit_ne_sep c h0
    · exact isDigit_ne_sep c h1
    · exact isDigit_ne_sep c h2
    · exact isDigit_ne_sep c h3
    · subst h4; exact ⟨by decide, by decide⟩
    · exact isDigit_ne_sep c h5
    · exact isDigit_ne_sep c h6
    · subst h7; exact ⟨by decide, by decide⟩
    · exact isDigit_ne_sep c h8
    · exact isDigit_ne_sep c h9

theorem normChars_ymd_sep (ymd rest : List Char) (sep : Char)
    (hsep : sep = 'T' ∨ sep = ' ') (hlen : ymd.length = 10)
    (hm : matchesYMD ymd = true) :
    normChars (ymd ++ sep :: rest) = ymd := by
  have hns := matchesYMD_not_sep ymd hm hlen
  have hT : ∀ c ∈ ymd, (decide (c ≠ 'T') : Bool) = true := by
    intro c hc
    simpa using (hns c hc).1
  have hS : ∀ c ∈ ymd, (decide (c ≠ ' ') : Bool) = true := by
    intro c hc
    simpa using (hns c hc).2
  have ht : ((ymd ++ sep :: rest).takeWhile (fun c => decide (c ≠ 'T'))).takeWhile
      (fun c => decide (c ≠ ' ')) = ymd := by
    rcases hsep with rfl | rfl
    · rw [takeWhile_append_all _ ymd _ hT]
      have h1 : List.takeWhile (fun c => decide (c ≠ 'T')) ('T' :: rest) = [] := by
        simp [List.takeWhile_cons]
      rw [h1, List.append_nil]
      exact takeWhile_all _ ymd hS
    · rw [takeWhile_append_all _ ymd _ hT]
      have h1 : List.takeWhile (fun c => decide (c ≠ 'T')) (' ' :: rest) =
          ' ' :: List.takeWhile (fun c => decide (c ≠ 'T')) rest := by
        simp [List.takeWhile_cons]
      rw [h1, takeWhile_append_all _ ymd _ hS]
      have h2 : List.takeWhile (fun c => decide (c ≠ ' '))
          (' ' :: List.takeWhile (fun c => decide (c ≠ 'T')) rest) = [] := by
        simp [List.takeWhile_cons]
      rw [h2, List.append_nil]
  unfold normChars
  rw [ht]
  simp only [hm, if_true]
  rw [← hlen, List.take_length]

/-- C8: a date value of the form `YYYY-MM-DD` followed by a time component
separated by `T` or by a space normalizes to exactly its ten-character
`YYYY-MM-DD` prefix; and a row with no recognized date column receives the
normalization of the current timestamp's ISO string, i.e. the current date. -/
theorem C8_date_normalization (ymd rest : List Char) (sep : Char)
    (platform nowISO : String) (n : Nat) (row : RawRow)
    (hsep : sep = 'T' ∨ sep = ' ') (hlen : ymd.length = 10)
    (hm : matchesYMD ymd = true) :
    normalizeDate (String.mk (ymd ++ sep :: rest)) = String.mk ymd ∧
    (foundDateKey row = none → contentOf row ≠ "" →
      normalizeRow platform nowISO n row =
        some { id := "csv-row-" ++ toString n, content := contentOf row,
               date := normalizeDate nowISO, source := platform }) := by
  constructor
  · unfold normalizeDate
    rw [show (String.mk (ymd ++ sep :: rest)).data = ymd ++ sep :: rest from rfl]
    rw [normChars_ymd_sep ymd rest sep hsep hlen hm]
  · intro hkey hcontent
    unfold normalizeRow
    rw [hkey]
    simp [hcontent]

/-- C8 witness: `"2025-09-15T10:00:00Z"` normalizes to `"2025-09-15"`, and a
concrete dateless row receives the normalized current timestamp. -/
theorem C8_witness :
    normalizeDate (String.mk ("2025-09-15".data ++ 'T' :: "10:00:00Z".data)) =
      String.mk "2025-09-15".data ∧
    (foundDateKey [("content", "oke")] = none → contentOf [("content", "oke")] ≠ "" →
      normalizeRow "CSV" "2025-10-11T08:30:00.000Z" 1 [("content", "oke")] =
        some { id := "csv-row-" ++ toString 1, content := contentOf [("content", "oke")],
               date := normalizeDate "2025-10-11T08:30:00.000Z", source := "CSV" }) :=
  C8_date_normalization "2025-09-15".data "10:00:00Z".data 'T' "CSV"
    "2025-10-11T08:30:00.000Z" 1 [("content", "oke")] (Or.inl rfl) (by decide) (by decide)

/-! ### C9, C10: TEXT ordering and the read-side queries -/

theorem charsLe_total (a b : List Char) : charsLe a b = true ∨ charsLe b a = true := by
  induction a generalizing b with
  | nil => left; rfl
  | cons x xs ih =>
    cases b with
    | nil => right; rfl
    | cons y ys =>
      by_cases hxy : x = y
      · subst hxy
        rcases ih ys with h | h
        · left; simpa [charsLe] using h
        · right; simpa [charsLe] using h
      · rcases lt_or_gt_of_ne hxy with h | h
        · left; simp [charsLe, hxy, h]
        · right
          have hyx : y ≠ x := fun h2 => hxy h2.symm
          simp [charsLe, hyx, h]

theorem charsLe_trans (a b c : List Char) (hab : charsLe a b = true)
    (hbc : charsLe b c = true) : charsLe a c = true := by
  induction a generalizing b c with
  | nil => rfl
  | cons x xs ih =>
    cases b with
    | nil => simp [charsLe] at hab
    | cons y ys =>
      cases c with
      | nil => simp [charsLe] at hbc
      | cons z zs =>
        by_cases hxy : x = y
        · subst hxy
          by_cases hxz : x = z
          · subst hxz
            simp only [charsLe, if_pos rfl] at hab hbc ⊢
            exact ih ys zs hab hbc
          · simp only [charsLe, if_pos rfl] at hab
            simp only [charsLe, if_neg hxz] at hbc ⊢
            exact hbc
        · by_cases hyz : y = z
          · subst hyz
            simp only [charsLe, if_neg hxy] at hab ⊢
            exact hab
          · simp only [charsLe, if_neg hxy] at hab
            simp only [charsLe, if_neg hyz] at hbc
            have hxz : x < z := lt_trans (of_decide_eq_true hab) (of_decide_eq_true hbc)
            simp [charsLe, ne_of_lt hxz, hxz]

theorem monthLe_total (a b : String) : monthLe a b ∨ monthLe b a :=
  charsLe_total a.data b.data

theorem monthLe_trans (a b c : String) (hab : monthLe a b) (hbc : monthLe b c) :
    monthLe a c :=
  charsLe_trans a.data b.data c.data hab hbc

theorem dateDesc_total (a b : StoredReview) : dateDesc a b ∨ dateDesc b a :=
  charsLe_total b.date.data a.date.data

theorem dateDesc_trans (a b c : StoredReview) (hab : dateDesc a b) (hbc : dateDesc b c) :
    dateDesc a c :=
  charsLe_trans c.date.data b.date.data a.date.data hbc hab

/-- C9 counterexample: with the cutoff `2025-04-11` (today `2025-10-11` minus
six months) and stored dates spanning eight calendar months, the trends query
returns seven months, not six: the day-based window clips only part of the
earliest months. -/
theorem C9_counterexample :
    ((getTrends "2025-04-11" trendRows8).map (·.month)).length = 7 ∧
    ((trendRows8.map (fun r => monthOf r.date)).dedup).length = 8 ∧
    (7 : Nat) ≠ 6 := by
  refine ⟨by decide, by decide, by decide⟩

/-- C9 (amended): the trends query returns one row per calendar month having a
stored review dated on or after the cutoff day (today minus six months),
ordered chronologically, with the per-month total counting exactly the
filtered rows of that month; such a day-based window can cover up to seven
calendar months, so with dates spanning eight months as many as seven recent
months appear. -/
theorem C9_amended (cutoff : String) (rows : List StoredReview) :
    List.Sorted monthLe ((getTrends cutoff rows).map (·.month)) ∧
    (∀ mo : String, mo ∈ (getTrends cutoff rows).map (·.month) ↔
      ∃ r ∈ rows, strLe cutoff r.date = true ∧ monthOf r.date = mo) ∧
    ∀ t ∈ getTrends cutoff rows,
      t.count =
        ((trendsFiltered cutoff rows).filter (fun r => monthOf r.date == t.month)).length := by
  haveI : IsTotal String monthLe := ⟨monthLe_total⟩
  haveI : IsTrans String monthLe := ⟨monthLe_trans⟩
  have hmap : (getTrends cutoff rows).map (·.month) =
      List.insertionSort monthLe
        (((trendsFiltered cutoff rows).map (fun r => monthOf r.date)).dedup) := by
    unfold getTrends
    rw [List.map_map]
    simp [Function.comp_def]
  refine ⟨?_, ?_, ?_⟩
  · rw [hmap]
    exact List.sorted_insertionSort monthLe _
  · intro mo
    rw [hmap]
    simp only [List.mem_insertionSort, List.mem_dedup, List.mem_map, trendsFiltered,
      List.mem_filter]
    constructor
    · rintro ⟨r, ⟨hr, hd⟩, rfl⟩
      exact ⟨r, hr, hd, rfl⟩
    · rintro ⟨r, hr, hd, rfl⟩
      exact ⟨r, ⟨hr, hd⟩, rfl⟩
  · intro t ht
    unfold getTrends at ht
    simp only [List.mem_map] at ht
    obtain ⟨mo, _, rfl⟩ := ht
    simp

/-- C10: a sentiment query parameter that is not exactly one of `positive`,
`negative`, `neutral` — the absent parameter included — applies no filter: the
listing returns exactly the stored rows (as a permutation, with equal length
and the same members), ordered by date descending. -/
theorem C10_invalid_filter_returns_all (f : Option String) (rows : List StoredReview)
    (hf : validSentimentFilter f = false) :
    (apiData f rows).Perm rows ∧
    (∀ r : StoredReview, r ∈ apiData f rows ↔ r ∈ rows) ∧
    (apiData f rows).length = rows.length ∧
    List.Sorted dateDesc (apiData f rows) := by
  haveI : IsTotal StoredReview dateDesc := ⟨dateDesc_total⟩
  haveI : IsTrans StoredReview dateDesc := ⟨dateDesc_trans⟩
  have h1 : apiData f rows = List.insertionSort dateDesc rows := by
    unfold apiData
    simp [hf]
  refine ⟨?_, ?_, ?_, ?_⟩
  · rw [h1]
    exact List.perm_insertionSort dateDesc rows
  · intro r
    rw [h1]
    exact List.mem_insertionSort dateDesc
  · rw [h1]
    exact (List.perm_insertionSort dateDesc rows).length_eq
  · rw [h1]
    exact List.sorted_insertionSort dateDesc rows

/-- C10 witness: a misspelled filter value on a concrete two-row store. -/
theorem C10_witness :
    (apiData (some "Positive") [goodRow, badRow]).Perm [goodRow, badRow] ∧
    (∀ r : StoredReview, r ∈ apiData (some "Positive") [goodRow, badRow] ↔
      r ∈ [goodRow, badRow]) ∧
    (apiData (some "Positive") [goodRow, badRow]).length = [goodRow, badRow].length ∧
    List.Sorted dateDesc (apiData (some "Positive") [goodRow, badRow]) :=
  C10_invalid_filter_returns_all (some "Positive") [goodRow, badRow] (by decide)

end Kana
